import Mathlib

/-!
# Verification of the go-deltastream statement-execution and result-consumption core

This file is a shallow embedding, in Lean 4, of the statement-execution and
result-consumption subsystem of the `go-deltastream` database driver:

* the wire codec (`parseTime`, the per-cell decoders of the two row cursors),
* the partition-index mapping of the partitioned result cursor
  (`calcPartitionIdx`) and the cursor's `Next` step,
* the polling loops of the primary connection (`Conn.getStatement`) and of the
  dataplane client (`DPConn.getStatement`),
* the multipart encoding of statement submissions with attachments, and
* the streaming (websocket) cursor's reader/`Next` protocol.

Go strings are modelled as `List Char`, Go `int32`/`int64` as `Int` (the
modelled values stay far from the overflow boundary except where a claim is
about the boundary itself, where the range checks of `strconv.ParseInt` are
modelled explicitly), fallible operations as `Except GoErr`.  Goroutine/channel
plumbing of the streaming cursor is modelled as the deterministic FIFO replay
of the single background reader's outputs.
-/

namespace GoDS

/-- Error values produced by the driver.  Each constructor corresponds to one
error shape constructed by the Go source (`ErrInterfaceError`, `ErrSQLError`,
`ErrClientError`, `ErrServerError`, the `errors.Errorf(...: %w)` wrappings of
`ErrAuthenticationError` / `ErrDeadlineExceeded` / `ErrServiceUnavailable`,
`ctx.Err()` surfaced unwrapped, `sql.ErrConnDone`, `io.EOF`, and the error
values returned by the stdlib parsers the driver calls). -/
inductive GoErr where
  | interfaceErr (msg : String)
  | clientErr (msg : String)
  | serverErr (msg : String)
  | sqlErr (sqlCode : String) (msg : String)
  | authErr (msg : String)
  | deadlineErr (msg : String)
  | unavailableErr (msg : String)
  | ctxCanceled
  | connDone
  | numSyntaxErr
  | numRangeErr
  | timeParseErr
  | invalidTimestampErr
  | unsupportedColTypeErr
  | base64Err
  | ioEOF
deriving DecidableEq, Repr

/-- The result of Go's `time.Parse` (a `time.Time`), restricted to the fields
the driver's layouts can produce: calendar date, clock, nanoseconds and a fixed
zone offset in seconds (0 = UTC, which is also what `time.Parse` yields when
the layout has no zone token). -/
structure GoTime where
  year : Nat
  month : Nat
  day : Nat
  hour : Nat
  minute : Nat
  second : Nat
  nanosecond : Nat
  offsetSeconds : Int
deriving DecidableEq, Repr

/-- `time.Parse`'s initial value: January 1, year 0, midnight UTC. -/
def goTimeZero : GoTime := ⟨0, 1, 1, 0, 0, 0, 0, 0⟩

/-- `strings.HasPrefix`, on the character lists of the two strings. -/
def goHasPfx (p s : String) : Bool := p.toList.isPrefixOf s.toList

def digToNat (c : Char) : Nat := c.toNat - '0'.toNat

/-- Two mandatory decimal digits (Go's `getnum` with `fixed = true`). -/
def take2 : List Char → Option (Nat × List Char)
  | a :: b :: rest =>
    if a.isDigit && b.isDigit then some (10 * digToNat a + digToNat b, rest) else none
  | _ => none

/-- Four mandatory decimal digits (Go's year token `2006`). -/
def take4 : List Char → Option (Nat × List Char)
  | a :: b :: c :: d :: rest =>
    if a.isDigit && b.isDigit && c.isDigit && d.isDigit then
      some (1000 * digToNat a + 100 * digToNat b + 10 * digToNat c + digToNat d, rest)
    else none
  | _ => none

/-- Up to `k` leading decimal digits. -/
def takeDigits : Nat → List Char → (List Char × List Char)
  | 0, v => ([], v)
  | k + 1, c :: rest =>
    if c.isDigit then
      let (ds, r) := takeDigits k rest
      (c :: ds, r)
    else ([], c :: rest)
  | _ + 1, [] => ([], [])

def digitsVal (ds : List Char) : Nat := ds.foldl (fun a c => 10 * a + digToNat c) 0

/-- Leap-year rule used by Go's `daysIn`. -/
def isLeap (y : Nat) : Bool := y % 4 == 0 && (y % 100 != 0 || y % 400 == 0)

/-- Days in a month, as in Go's `time` package. -/
def daysIn (month year : Nat) : Nat :=
  if month = 2 then (if isLeap year then 29 else 28)
  else if month = 4 ∨ month = 6 ∨ month = 9 ∨ month = 11 then 30
  else 31

/-- The range validation `time.Parse` performs on the parsed fields. -/
def validateGoTime (t : GoTime) : Except GoErr GoTime :=
  if 1 ≤ t.month ∧ t.month ≤ 12 ∧ 1 ≤ t.day ∧ t.day ≤ daysIn t.month t.year ∧
      t.hour ≤ 23 ∧ t.minute ≤ 59 ∧ t.second ≤ 59 then
    .ok t
  else .error .timeParseErr

/-- Interpreter for Go reference layouts, restricted to the tokens appearing in
the driver's layouts: `2006`, `01`, `02`, `15`, `04`, `05`, `.999999999`
(optional fraction, digits elided when absent), `Z0700` (either a literal `Z`
meaning UTC or `±hhmm`), and literal characters.  The whole value must be
consumed, and the parsed fields are range-validated, as in `time.Parse`. -/
def goTimeParseAux : List Char → List Char → GoTime → Except GoErr GoTime
  | [], v, acc => if v = [] then validateGoTime acc else .error .timeParseErr
  | '2' :: '0' :: '0' :: '6' :: lt, v, acc =>
    match take4 v with
    | some (y, rest) => goTimeParseAux lt rest { acc with year := y }
    | none => .error .timeParseErr
  | '.' :: '9' :: '9' :: '9' :: '9' :: '9' :: '9' :: '9' :: '9' :: '9' :: lt, v, acc =>
    match v with
    | '.' :: c :: rest =>
      if c.isDigit then
        let (ds, r) := takeDigits 9 (c :: rest)
        goTimeParseAux lt r { acc with nanosecond := digitsVal ds * 10 ^ (9 - ds.length) }
      else goTimeParseAux lt v acc
    | _ => goTimeParseAux lt v acc
  | 'Z' :: '0' :: '7' :: '0' :: '0' :: lt, v, acc =>
    match v with
    | 'Z' :: rest => goTimeParseAux lt rest { acc with offsetSeconds := 0 }
    | '+' :: rest =>
      match take2 rest with
      | some (hh, r1) =>
        match take2 r1 with
        | some (mm, r2) =>
          if mm ≤ 59 then
            goTimeParseAux lt r2 { acc with offsetSeconds := (hh * 3600 + mm * 60 : Nat) }
          else .error .timeParseErr
        | none => .error .timeParseErr
      | none => .error .timeParseErr
    | '-' :: rest =>
      match take2 rest with
      | some (hh, r1) =>
        match take2 r1 with
        | some (mm, r2) =>
          if mm ≤ 59 then
            goTimeParseAux lt r2 { acc with offsetSeconds := -((hh * 3600 + mm * 60 : Nat) : Int) }
          else .error .timeParseErr
        | none => .error .timeParseErr
      | none => .error .timeParseErr
    | _ => .error .timeParseErr
  | '1' :: '5' :: lt, v, acc =>
    match take2 v with
    | some (h, rest) => goTimeParseAux lt rest { acc with hour := h }
    | none => .error .timeParseErr
  | '0' :: '1' :: lt, v, acc =>
    match take2 v with
    | some (m, rest) => goTimeParseAux lt rest { acc with month := m }
    | none => .error .timeParseErr
  | '0' :: '2' :: lt, v, acc =>
    match take2 v with
    | some (d, rest) => goTimeParseAux lt rest { acc with day := d }
    | none => .error .timeParseErr
  | '0' :: '4' :: lt, v, acc =>
    match take2 v with
    | some (m, rest) => goTimeParseAux lt rest { acc with minute := m }
    | none => .error .timeParseErr
  | '0' :: '5' :: lt, v, acc =>
    match take2 v with
    | some (s, rest) => goTimeParseAux lt rest { acc with second := s }
    | none => .error .timeParseErr
  | c :: lt, v, acc =>
    match v with
    | c' :: rest => if c = c' then goTimeParseAux lt rest acc else .error .timeParseErr
    | [] => .error .timeParseErr

/-- `time.Parse layout value`, for the driver's layouts. -/
def goTimeParse (layout value : List Char) : Except GoErr GoTime :=
  goTimeParseAux layout value goTimeZero

/-- Splitting a list at every occurrence of an element: the list of maximal
separator-free runs (`n` separators yield `n + 1` chunks). -/
def goSplit {α : Type} [DecidableEq α] (sep : α) : List α → List (List α)
  | [] => [[]]
  | c :: rest =>
    let r := goSplit sep rest
    if c = sep then [] :: r
    else
      match r with
      | [] => [[c]]
      | h :: t => (c :: h) :: t

/-- `strings.Split value sep` for a one-character separator. -/
def goSplitChar (sep : Char) (s : List Char) : List (List Char) := goSplit sep s

/-- The layout string built by `parseTime` for `TIMESTAMP*` columns. -/
def layoutTimestamp (nano tz : Bool) : List Char :=
  "2006-01-02 15:04:05".toList ++ (if nano then ".999999999".toList else []) ++
    (if tz then "Z0700".toList else [])

/-- The layout string built by `parseTime` for `TIME`/`TIME(n)` columns. -/
def layoutClock (nano tz : Bool) : List Char :=
  "15:04:05".toList ++ (if nano then ".999999999".toList else []) ++
    (if tz then "Z0700".toList else [])

/-- `parseTime` from `rows.go`: `DATE` parses with the fixed calendar layout;
`TIMESTAMP*` splits the value on `" "`, demands exactly two chunks, and builds
the layout conditionally from the *time part* (fraction pattern iff it contains
`'.'`, zone pattern iff it contains `'Z'`, `'+'` or `'-'`); `TIME`/`TIME(` does
the same conditional construction on the whole value; anything else is an
unsupported column type. -/
def parseTime (s : List Char) (colType : String) : Except GoErr GoTime :=
  if colType = "DATE" then goTimeParse "2006-01-02".toList s
  else if goHasPfx "TIMESTAMP" colType then
    match goSplitChar ' ' s with
    | [_, timePart] =>
      let containsNano := timePart.contains '.'
      let containsTZ := timePart.contains 'Z' || timePart.contains '+' || timePart.contains '-'
      goTimeParse (layoutTimestamp containsNano containsTZ) s
    | _ => .error .invalidTimestampErr
  else if colType = "TIME" ∨ goHasPfx "TIME(" colType then
    let containsNano := s.contains '.'
    let containsTZ := s.contains 'Z' || s.contains '+' || s.contains '-'
    goTimeParse (layoutClock containsNano containsTZ) s
  else .error .unsupportedColTypeErr

/-- Maximum `int64` value. -/
def int64Max : Int := 2 ^ 63 - 1

/-- Minimum `int64` value. -/
def int64Min : Int := -(2 ^ 63)

/-- Splits an optional leading sign from a numeric literal. -/
def splitSign (s : List Char) : Bool × List Char :=
  match s with
  | [] => (false, [])
  | c :: r => if c = '-' then (true, r) else if c = '+' then (false, r) else (false, c :: r)

/-- `strconv.ParseInt(s, 10, 64)`: optional sign, mandatory decimal digits,
with the 64-bit range check (`ErrRange` outside `[-2^63, 2^63-1]`). -/
def goParseInt64 (s : List Char) : Except GoErr Int :=
  let (neg, ds) := splitSign s
  if ds = [] ∨ ¬ ds.all Char.isDigit then .error .numSyntaxErr
  else
    let v : Int := (digitsVal ds : Nat)
    let iv := if neg then -v else v
    if iv < int64Min ∨ int64Max < iv then .error .numRangeErr else .ok iv

/-- Round a natural number to the nearest (ties to even) value representable
with a 64-bit mantissa: the rounding `big.Float` at its default precision (a
zero `prec` argument is promoted to 64 by `Float.scan`) applies under
`big.ToNearestEven`. -/
def rne64 (v : Nat) : Nat :=
  if v < 2 ^ 64 then v
  else
    let sh := Nat.log2 v + 1 - 64
    let q := v / 2 ^ sh
    let r := v % 2 ^ sh
    let half := 2 ^ (sh - 1)
    let q' := if half < r ∨ (r = half ∧ q % 2 = 1) then q + 1 else q
    q' * 2 ^ sh

/-- The `big.ParseFloat(s, 10, 0, big.ToNearestEven)` / `flt.Int(new(big.Int))`
pipeline of the streaming cursor's `BIGINT` branch, modelled on its actual
input domain: decimal integer literals with an optional sign (the wire form of
`BIGINT` cells).  Parsing never fails on a well-formed integer literal of any
magnitude; the value is rounded to the 64-bit mantissa and `Int` truncation is
the identity on integers. -/
def goBigParseFloatInt (s : List Char) : Except GoErr Int :=
  let (neg, ds) := splitSign s
  if ds = [] ∨ ¬ ds.all Char.isDigit then .error .numSyntaxErr
  else
    let v := rne64 (digitsVal ds)
    .ok (if neg then -(v : Int) else (v : Int))

/-- Syntax accepted by `strconv.ParseFloat(s, 64)`, restricted to finite
decimal literals (the `Inf`/`NaN`/hex forms are outside the modelled
fragment).  The parsed binary value is not modelled — the decoders below carry
the raw text through as `CellValue.floatRaw`. -/
def isFloatSyntax (s : List Char) : Bool :=
  let s1 := (splitSign s).2
  let mant := s1.takeWhile (fun c => c ≠ 'e' ∧ c ≠ 'E')
  let ex := s1.drop mant.length
  let ip := mant.takeWhile Char.isDigit
  let rest := mant.drop ip.length
  let mantOk :=
    match rest with
    | [] => ip ≠ []
    | '.' :: fp => (ip ≠ [] ∨ fp ≠ []) && fp.all Char.isDigit
    | _ => false
  let exOk :=
    match ex with
    | [] => true
    | _ :: r =>
      let r2 := (splitSign r).2
      r2 ≠ [] && r2.all Char.isDigit
  mantOk && exOk

/-- Value of one base64 alphabet character (`encoding/base64.StdEncoding`). -/
def b64Val (c : Char) : Option Nat :=
  if 'A' ≤ c ∧ c ≤ 'Z' then some (c.toNat - 'A'.toNat)
  else if 'a' ≤ c ∧ c ≤ 'z' then some (c.toNat - 'a'.toNat + 26)
  else if '0' ≤ c ∧ c ≤ '9' then some (c.toNat - '0'.toNat + 52)
  else if c = '+' then some 62
  else if c = '/' then some 63
  else none

/-- `base64.StdEncoding.DecodeString`: standard alphabet, `=`-padded
four-character groups, yielding the decoded bytes. -/
def goBase64Decode : List Char → Except GoErr (List Nat)
  | [] => .ok []
  | a :: b :: '=' :: '=' :: [] =>
    match b64Val a, b64Val b with
    | some va, some vb => .ok [va * 4 + vb / 16]
    | _, _ => .error .base64Err
  | a :: b :: c :: '=' :: [] =>
    match b64Val a, b64Val b, b64Val c with
    | some va, some vb, some vc =>
      .ok [va * 4 + vb / 16, (vb % 16) * 16 + vc / 4]
    | _, _, _ => .error .base64Err
  | a :: b :: c :: d :: rest =>
    match b64Val a, b64Val b, b64Val c, b64Val d with
    | some va, some vb, some vc, some vd =>
      (goBase64Decode rest).map
        (fun tl => (va * 4 + vb / 16) :: ((vb % 16) * 16 + vc / 4) :: ((vc % 4) * 64 + vd) :: tl)
    | _, _, _, _ => .error .base64Err
  | _ => .error .base64Err

/-- ASCII lower-casing, as `strings.ToLower` acts on the (ASCII) wire values
of `BOOLEAN` cells. -/
def asciiLower (c : Char) : Char :=
  if 'A' ≤ c ∧ c ≤ 'Z' then Char.ofNat (c.toNat + 32) else c

def goToLower (s : List Char) : List Char := s.map asciiLower

/-- A decoded native value placed into a `dest` slot by a cursor's `Next`. -/
inductive CellValue where
  | null
  | str (s : List Char)
  | int64 (i : Int)
  | bigInt (i : Int)
  | floatRaw (s : List Char)
  | timeVal (t : GoTime)
  | bytes (b : List Nat)
  | boolean (b : Bool)
deriving DecidableEq, Repr

/-- Effect of one decode switch iteration on a `dest` slot: either the slot is
assigned a value, or no case of the switch matched and the slot is left
untouched. -/
inductive CellOut where
  | set (v : CellValue)
  | unchanged
deriving DecidableEq, Repr

/-- The per-cell decode switch of the partitioned cursor
(`resultSetRows.Next`, `rows.go`), with the source's case order: `nil` cell;
`VARCHAR`/`ARRAY`/`MAP`/`STRUCT` type-name prefixes pass the raw string
through; `TINYINT`/`SMALLINT`/`INTEGER`/`BIGINT` (exact names) go through
`strconv.ParseInt(_, 10, 64)`; `FLOAT`/`DOUBLE` (exact) and the `DECIMAL`
family through `strconv.ParseFloat(_, 64)`; the `TIME` prefix (which also
captures every `TIMESTAMP*` name) and `DATE` through `parseTime`;
`VARBINARY`/`BYTES` through base64; `BOOLEAN` case-insensitively.  The switch
has no default case: an unmatched type leaves the slot unchanged. -/
def resultSetDecodeCell (colType : String) (cell : Option (List Char)) :
    Except GoErr CellOut :=
  match cell with
  | none => .ok (.set .null)
  | some s =>
    if goHasPfx "VARCHAR" colType ∨ goHasPfx "ARRAY" colType ∨
        goHasPfx "MAP" colType ∨ goHasPfx "STRUCT" colType then
      .ok (.set (.str s))
    else if colType = "TINYINT" ∨ colType = "SMALLINT" ∨ colType = "INTEGER" ∨
        colType = "BIGINT" then
      (goParseInt64 s).map (fun i => .set (.int64 i))
    else if colType = "FLOAT" ∨ colType = "DOUBLE" ∨ goHasPfx "DECIMAL" colType then
      if isFloatSyntax s then .ok (.set (.floatRaw s)) else .error .numSyntaxErr
    else if goHasPfx "TIME" colType ∨ colType = "DATE" then
      (parseTime s colType).map (fun t => .set (.timeVal t))
    else if colType = "VARBINARY" ∨ colType = "BYTES" then
      (goBase64Decode s).map (fun b => .set (.bytes b))
    else if colType = "BOOLEAN" then
      .ok (.set (.boolean (goToLower s = "true".toList)))
    else
      .ok .unchanged

/-- The per-cell decode switch of the streaming cursor (`streamingRows.Next`,
`streaming.go`), with the source's case order: `nil` cell; `VARCHAR` family,
`DATE` (exact) and `ARRAY`/`MAP`/`STRUCT` prefixes pass through;
`TINYINT`/`SMALLINT`/`INTEGER` through `strconv.ParseInt`; `BIGINT` through
`big.ParseFloat` + `big.Int` narrowing; `FLOAT`/`DOUBLE`/`DECIMAL*` through
`strconv.ParseFloat`; the `TIME` prefix through `parseTime`;
`VARBINARY`/`BYTES` through base64; `BOOLEAN` case-insensitively.  The
switch's `default: fallthrough` arm sends every unmatched type into the
pass-through string case. -/
def streamingDecodeCell (colType : String) (cell : Option (List Char)) :
    Except GoErr CellOut :=
  match cell with
  | none => .ok (.set .null)
  | some s =>
    if goHasPfx "VARCHAR" colType ∨ colType = "DATE" ∨ goHasPfx "ARRAY" colType ∨
        goHasPfx "MAP" colType ∨ goHasPfx "STRUCT" colType then
      .ok (.set (.str s))
    else if colType = "TINYINT" ∨ colType = "SMALLINT" ∨ colType = "INTEGER" then
      (goParseInt64 s).map (fun i => .set (.int64 i))
    else if colType = "BIGINT" then
      (goBigParseFloatInt s).map (fun i => .set (.bigInt i))
    else if colType = "FLOAT" ∨ colType = "DOUBLE" ∨ goHasPfx "DECIMAL" colType then
      if isFloatSyntax s then .ok (.set (.floatRaw s)) else .error .numSyntaxErr
    else if goHasPfx "TIME" colType then
      (parseTime s colType).map (fun t => .set (.timeVal t))
    else if colType = "VARBINARY" ∨ colType = "BYTES" then
      (goBase64Decode s).map (fun b => .set (.bytes b))
    else if colType = "BOOLEAN" then
      .ok (.set (.boolean (goToLower s = "true".toList)))
    else
      .ok (.set (.str s))

/-- A column descriptor (`apiv2` result-set metadata / `PrintTopicColumn`). -/
structure Column where
  name : String
  typ : String
  nullable : Bool
deriving DecidableEq, Repr

def defaultColumn : Column := ⟨"", "", false⟩

/-- Representative native types (`reflect.Type` values of the `typeMap`). -/
inductive GoType where
  | goString
  | goInt64
  | goFloat64
  | goTime
  | goBytes
  | goBool
deriving DecidableEq, Repr

/-- The package-level `typeMap` of `rows.go`. -/
def typeMap : String → Option GoType
  | "VARCHAR" => some .goString
  | "TINYINT" => some .goInt64
  | "SMALLINT" => some .goInt64
  | "INTEGER" => some .goInt64
  | "BIGINT" => some .goInt64
  | "FLOAT" => some .goFloat64
  | "DOUBLE" => some .goFloat64
  | "DECIMAL" => some .goFloat64
  | "TIMESTAMP" => some .goTime
  | "TIMESTAMP_TZ" => some .goTime
  | "DATE" => some .goTime
  | "TIME" => some .goTime
  | "TIMESTAMP_LTZ" => some .goTime
  | "VARBINARY" => some .goBytes
  | "BYTES" => some .goBytes
  | "ARRAY" => some .goString
  | "MAP" => some .goString
  | "STRUCT" => some .goString
  | "BOOLEAN" => some .goBool
  | _ => none

/-- The prefix dispatch shared verbatim by both cursors'
`ColumnTypeScanType`. -/
def scanTypeOf (t : String) : Option GoType :=
  if goHasPfx "VARCHAR" t then typeMap "VARCHAR"
  else if goHasPfx "DECIMAL" t then typeMap "DECIMAL"
  else if goHasPfx "TIMESTAMP" t then typeMap "TIMESTAMP"
  else if goHasPfx "TIME" t then typeMap "TIME"
  else if goHasPfx "ARRAY" t then typeMap "ARRAY"
  else if goHasPfx "STRUCT" t then typeMap "STRUCT"
  else if goHasPfx "MAP" t then typeMap "MAP"
  else typeMap t

/-- `resultSetRows.ColumnTypeNullable`: guarded index access, defaulting to
`(false, false)` outside `[0, len(columns))`. -/
def columnTypeNullableRS (cols : List Column) (index : Int) : Bool × Bool :=
  if index < 0 ∨ (cols.length : Int) ≤ index then (false, false)
  else ((cols.getD index.toNat defaultColumn).nullable, true)

/-- `resultSetRows.ColumnTypeDatabaseTypeName`: defaults to `""` outside the
column range. -/
def columnTypeDatabaseTypeNameRS (cols : List Column) (index : Int) : String :=
  if index < 0 ∨ (cols.length : Int) ≤ index then ""
  else (cols.getD index.toNat defaultColumn).typ

/-- `resultSetRows.ColumnTypeScanType`: defaults to `nil` (`none`) outside the
column range. -/
def columnTypeScanTypeRS (cols : List Column) (index : Int) : Option GoType :=
  if index < 0 ∨ (cols.length : Int) ≤ index then none
  else scanTypeOf (cols.getD index.toNat defaultColumn).typ

/-- `streamingRows.ColumnTypeNullable`: `(false, false)` when no metadata
message has been stored, or outside the column range. -/
def columnTypeNullableStream (metadata : Option (List Column)) (index : Int) :
    Bool × Bool :=
  match metadata with
  | none => (false, false)
  | some cols =>
    if index < 0 ∨ (cols.length : Int) ≤ index then (false, false)
    else ((cols.getD index.toNat defaultColumn).nullable, true)

/-- The display-hint rewrite of `streamingRows.ColumnTypeDatabaseTypeName`:
`strings.SplitN(t, ";", 2)`, prepend `streaming=true` to the hint segment and
rejoin. -/
def addStreamingHint (t : List Char) : List Char :=
  if t.contains ';' then
    let pre := t.takeWhile (fun c => c ≠ ';')
    let post := (t.drop pre.length).drop 1
    pre ++ ';' :: ("streaming=true,".toList ++ post)
  else t ++ ";streaming=true".toList

/-- `streamingRows.ColumnTypeDatabaseTypeName`: `""` when no metadata message
has been stored, or outside the column range; otherwise the declared type,
rewritten with the `streaming=true` hint when hints are enabled. -/
def columnTypeDatabaseTypeNameStream (enableHints : Bool)
    (metadata : Option (List Column)) (index : Int) : String :=
  match metadata with
  | none => ""
  | some cols =>
    if index < 0 ∨ (cols.length : Int) ≤ index then ""
    else
      let t := (cols.getD index.toNat defaultColumn).typ
      if enableHints then String.mk (addStreamingHint t.toList) else t

/-- `streamingRows.ColumnTypeScanType`: `nil` when no metadata message has
been stored, or outside the column range. -/
def columnTypeScanTypeStream (metadata : Option (List Column)) (index : Int) :
    Option GoType :=
  match metadata with
  | none => none
  | some cols =>
    if index < 0 ∨ (cols.length : Int) ≤ index then none
    else scanTypeOf (cols.getD index.toNat defaultColumn).typ

/-- The loop body of `resultSetRows.calcPartitionIdx`, carrying the running
partition index `pIdx`. -/
def calcPartitionIdxAux (counts : List Int) (pIdx rowIdx : Int) : Int × Int :=
  match counts with
  | [] => (-1, -1)
  | c :: rest =>
    if rowIdx < c then (rowIdx, pIdx) else calcPartitionIdxAux rest (pIdx + 1) (rowIdx - c)

/-- `resultSetRows.calcPartitionIdx`: walk the partition row counts,
subtracting each from the running offset, and return `(local row, partition)`
at the first partition whose row count strictly exceeds the remaining offset;
`(-1, -1)` when the walk falls off the end. -/
def calcPartitionIdx (counts : List Int) (rowIdx : Int) : Int × Int :=
  calcPartitionIdxAux counts 0 rowIdx

/-- The partition mapping as the spec words it (refinement reference for the
source's `calcPartitionIdx`): walk partition descriptors in order, subtracting
each partition's row count from the running offset until the remaining offset
falls within a partition — the first partition whose row count exceeds the
remaining offset owns the row; `none` (end-of-data) when no partition contains
the index. -/
def specPartitionOf (counts : List Int) (i : Int) : Option (Int × Nat) :=
  match counts with
  | [] => none
  | c :: rest =>
    if i < c then some (i, 0)
    else (specPartitionOf rest (i - c)).map (fun rj => (rj.1, rj.2 + 1))

/-- An `apiv2.ResultSet`: statement id, SQL status, optional message, column
metadata, partition row counts, and the row data of the currently loaded
partition. -/
structure ResultSet where
  statementID : Nat
  sqlState : String
  message : Option String
  columns : List Column
  partitionCounts : List Int
  data : List (List (Option (List Char)))
deriving DecidableEq, Repr

/-- The mutable fields of `resultSetRows` that `Next` reads and writes. -/
structure RowsState where
  currentRowIdx : Int
  currentPartitionIdx : Int
  currentResultSet : ResultSet
deriving DecidableEq, Repr

/-- Observable outcome of one `resultSetRows.Next` call. -/
inductive NextOutcome where
  | eof
  | fetchError (e : GoErr)
  | colCountMismatch (expected got : Nat)
  | decodeError (e : GoErr)
  | row (vals : List CellOut)
  | panicked
deriving DecidableEq, Repr

/-- Result of the decode loop over the columns of one row. -/
inductive RowDecode where
  | ok (vals : List CellOut)
  | errOut (e : GoErr)
  | panicked
deriving DecidableEq, Repr

/-- The decode loop of `resultSetRows.Next`: iterate the column descriptors in
order, reading `rowData[idx]` (a panic when the row is narrower than the
metadata) and stopping at the first decode error. -/
def decodeCellsRS : List Column → List (Option (List Char)) → RowDecode
  | [], _ => .ok []
  | _ :: _, [] => .panicked
  | c :: cs, d :: ds =>
    match resultSetDecodeCell c.typ d with
    | .error e => .errOut e
    | .ok v =>
      match decodeCellsRS cs ds with
      | .ok vs => .ok (v :: vs)
      | r => r

/-- The tail of `resultSetRows.Next` after the partition has been resolved and
the row index incremented (source lines reading `Data[rowIdx]`, checking the
destination width and decoding): `localRow` is the local row computed by
`calcPartitionIdx`, `s2` the state with the (possibly refetched) snapshot and
the incremented row index.  A local row outside the snapshot's data is a Go
slice-index panic. -/
def deliverRow (destLen : Nat) (localRow : Int) (s2 : RowsState) :
    NextOutcome × RowsState :=
  if localRow < 0 then (.panicked, s2)
  else
    match s2.currentResultSet.data.get? localRow.toNat with
    | none => (.panicked, s2)
    | some rowData =>
      if rowData.length ≠ destLen then (.colCountMismatch rowData.length destLen, s2)
      else
        match decodeCellsRS s2.currentResultSet.columns rowData with
        | .errOut e => (.decodeError e, s2)
        | .panicked => (.panicked, s2)
        | .ok vals => (.row vals, s2)

/-- One call of `resultSetRows.Next` (`rows.go`), with the partition fetch
(`conn.getStatement` with the target partition index) supplied as a function.
Mirrors the source: map `currentRowIdx + 1` through `calcPartitionIdx`;
`io.EOF` on `(-1, -1)`; fetch and install the owning partition when it differs
from the current one (returning the fetch error with the state untouched);
increment the row index; then deliver the row via `deliverRow`. -/
def rsNext (fetch : Int → Except GoErr ResultSet) (destLen : Nat) (s : RowsState) :
    NextOutcome × RowsState :=
  let rp := calcPartitionIdx s.currentResultSet.partitionCounts (s.currentRowIdx + 1)
  if rp.2 = -1 then (.eof, s)
  else
    let fetched : Except GoErr RowsState :=
      if rp.2 ≠ s.currentPartitionIdx then
        match fetch rp.2 with
        | .error e => .error e
        | .ok resp => .ok { s with currentPartitionIdx := rp.2, currentResultSet := resp }
      else .ok s
    match fetched with
    | .error e => (.fetchError e, s)
    | .ok s1 => deliverRow destLen rp.1 { s1 with currentRowIdx := s1.currentRowIdx + 1 }

/-- `SqlStateSuccessfulCompletion` (`sqlcode.go`). -/
def sqlStateSuccessfulCompletion : String := "00000"

/-- The discriminated response of the status/submission endpoints: at most one
of the `JSONxxx` pointers of the generated client response is non-nil.  The
`4xx`/`5xx` pointers carry the error body's message. -/
structure StatusResponse where
  json200 : Option ResultSet
  json202 : Option ResultSet
  json400 : Option String
  json403 : Option String
  json404 : Option String
  json408 : Option String
  json500 : Option String
  json503 : Option String
deriving DecidableEq, Repr

/-- A response with every branch empty. -/
def emptyResponse : StatusResponse := ⟨none, none, none, none, none, none, none, none⟩

/-- An accepted/pending (HTTP 202) status response. -/
def acceptedResponse (rs : ResultSet) : StatusResponse :=
  { emptyResponse with json202 := some rs }

/-- A 503 response carrying `msg` in its body. -/
def unavailableResponse (msg : String) : StatusResponse :=
  { emptyResponse with json503 := some msg }

deriving instance DecidableEq for Except

/-- What one arm of a polling switch does with the iteration. -/
inductive DispatchStep where
  | ret (r : Except GoErr ResultSet)
  | waitThenRepoll
  | repollNow
  | panicked
deriving DecidableEq, Repr

/-- The response switch of `Conn.getStatement` (`conn.go`): terminal 200
(success installs the result-set context and returns it; any other SQL state
is an `ErrSQLError`), 202 falls out of the switch into the ticker `select`, the
fault branches return translated errors — the 503 branch reading the 503
body's own message wrapped around `ErrServiceUnavailable` — and, the switch
having no default case, an unmatched response also falls through to the
`select`. -/
def connDispatch (r : StatusResponse) : DispatchStep :=
  match r.json200 with
  | some rs =>
    if rs.sqlState = sqlStateSuccessfulCompletion then .ret (.ok rs)
    else .ret (.error (.sqlErr rs.sqlState (rs.message.getD "")))
  | none =>
  match r.json202 with
  | some _ => .waitThenRepoll
  | none =>
  match r.json400 with
  | some m => .ret (.error (.interfaceErr m))
  | none =>
  match r.json403 with
  | some m => .ret (.error (.authErr m))
  | none =>
  match r.json404 with
  | some m => .ret (.error (.interfaceErr m))
  | none =>
  match r.json408 with
  | some m => .ret (.error (.deadlineErr m))
  | none =>
  match r.json500 with
  | some m => .ret (.error (.serverErr m))
  | none =>
  match r.json503 with
  | some m => .ret (.error (.unavailableErr m))
  | none => .waitThenRepoll

/-- The response switch of `DPConn.getStatement` (`dpconn.go`).  Two
deviations from `Conn.getStatement`'s switch, both taken verbatim from the
source: the 202 arm is `continue`, which in Go re-enters the enclosing `for`
immediately — skipping the ticker `select` entirely — and the 503 arm builds
its error from `resp.JSON500.Message`, a nil-pointer dereference (panic) since
in this arm `JSON500` is nil; a default arm returns a server error. -/
def dpDispatch (r : StatusResponse) : DispatchStep :=
  match r.json200 with
  | some rs =>
    if rs.sqlState = sqlStateSuccessfulCompletion then .ret (.ok rs)
    else .ret (.error (.sqlErr rs.sqlState (rs.message.getD "")))
  | none =>
  match r.json202 with
  | some _ => .repollNow
  | none =>
  match r.json400 with
  | some m => .ret (.error (.interfaceErr m))
  | none =>
  match r.json403 with
  | some m => .ret (.error (.authErr m))
  | none =>
  match r.json404 with
  | some m => .ret (.error (.interfaceErr m))
  | none =>
  match r.json408 with
  | some m => .ret (.error (.deadlineErr m))
  | none =>
  match r.json500 with
  | some m => .ret (.error (.serverErr m))
  | none =>
  match r.json503 with
  | some _ =>
    match r.json500 with
    | some m => .ret (.error (.unavailableErr m))
    | none => .panicked
  | none => .ret (.error (.serverErr "unexpected response"))

/-- Outcome of a whole polling loop run. -/
inductive PollOutcome where
  | ok (rs : ResultSet)
  | err (e : GoErr)
  | panicked
  | outOfFuel
deriving DecidableEq, Repr

/-- Externally visible events of a polling loop: one HTTP status poll, or one
1-second ticker wait separating consecutive polls. -/
inductive PollEvent where
  | poll
  | tick
deriving DecidableEq, Repr

/-- The polling loop shared shape: `responses i` is the server's answer to the
`i`-th poll, `ctxDone i` whether the calling context is cancelled when the
loop reaches the `select` after the `i`-th poll.  A `waitThenRepoll` step
models `Conn.getStatement`'s fall-through into
`select { case <-ctx.Done(): return ctx.Err(); case <-t.C: continue }`; a
`repollNow` step models `DPConn.getStatement`'s `continue`, which re-polls
with no tick and no cancellation check.  Fuel bounds the unrolling (the Go
loop itself has no bound). -/
def pollLoop (dispatch : StatusResponse → DispatchStep)
    (responses : Nat → StatusResponse) (ctxDone : Nat → Bool) :
    Nat → Nat → PollOutcome × List PollEvent
  | 0, _ => (.outOfFuel, [])
  | fuel + 1, i =>
    match dispatch (responses i) with
    | .ret (.ok rs) => (.ok rs, [.poll])
    | .ret (.error e) => (.err e, [.poll])
    | .panicked => (.panicked, [.poll])
    | .repollNow =>
      let r := pollLoop dispatch responses ctxDone fuel (i + 1)
      (r.1, .poll :: r.2)
    | .waitThenRepoll =>
      if ctxDone i then (.err .ctxCanceled, [.poll])
      else
        let r := pollLoop dispatch responses ctxDone fuel (i + 1)
        (r.1, .poll :: .tick :: r.2)

/-- `Conn.getStatement`: `sql.ErrConnDone` on a nil client, else the polling
loop over `connDispatch`. -/
def connGetStatement (clientNil : Bool) (responses : Nat → StatusResponse)
    (ctxDone : Nat → Bool) (fuel : Nat) : PollOutcome × List PollEvent :=
  if clientNil then (.err .connDone, []) else pollLoop connDispatch responses ctxDone fuel 0

/-- `DPConn.getStatement`: `sql.ErrConnDone` on a nil client, else the polling
loop over `dpDispatch` (whose 202 arm never reaches the ticker `select`). -/
def dpGetStatement (clientNil : Bool) (responses : Nat → StatusResponse)
    (ctxDone : Nat → Bool) (fuel : Nat) : PollOutcome × List PollEvent :=
  if clientNil then (.err .connDone, []) else pollLoop dpDispatch responses ctxDone fuel 0

/-- What `Conn.submitStatement`'s response switch decides after the multipart
POST: a terminal result/error, or — on 202 — entry into
`Conn.getStatement(statementID, 0)`.  Its 503 arm reads the 503 body's own
message. -/
inductive SubmitStep where
  | done (r : Except GoErr ResultSet)
  | enterPolling (statementID : Nat)
deriving DecidableEq, Repr

/-- The response switch of `Conn.submitStatement` (`conn.go`). -/
def submitDispatch (r : StatusResponse) : SubmitStep :=
  match r.json200 with
  | some rs =>
    if rs.sqlState = sqlStateSuccessfulCompletion then .done (.ok rs)
    else .done (.error (.sqlErr rs.sqlState (rs.message.getD "")))
  | none =>
  match r.json202 with
  | some rs => .enterPolling rs.statementID
  | none =>
  match r.json400 with
  | some m => .done (.error (.interfaceErr m))
  | none =>
  match r.json403 with
  | some m => .done (.error (.authErr m))
  | none =>
  match r.json404 with
  | some m => .done (.error (.interfaceErr m))
  | none =>
  match r.json408 with
  | some m => .done (.error (.deadlineErr m))
  | none =>
  match r.json500 with
  | some m => .done (.error (.serverErr m))
  | none =>
  match r.json503 with
  | some m => .done (.error (.unavailableErr m))
  | none => .done (.error (.interfaceErr "unexpected response from server"))

/-- A tagged message on the streaming websocket (`PrintTopicMessage`), as
produced by its `type`-discriminated `UnmarshalJSON`. -/
inductive WireMsg where
  | metaMsg (cols : List Column)
  | dataMsg (row : List (Option (List Char)))
  | errMsg (sqlCode msg : String)
  | otherMsg (tag : String)
deriving DecidableEq, Repr

/-- An item the background reader hands to the consumer: a data row on the
(bounded, FIFO) data channel, or a terminal error on the error channel. -/
inductive StreamEvent where
  | dataEv (row : List (Option (List Char)))
  | errEv (e : GoErr)
deriving DecidableEq, Repr

/-- The sequence of items `streamingRows.readMessages` delivers for a given
incoming message sequence, after which the server closes the socket.  A
`metadata` message is stored and signalled, producing no queue item; a `data`
message is pushed to the data channel; an `error` message pushes an
`ErrSQLError` and terminates the reader (modelled here for a cursor without a
query id, where the best-effort `DESCRIBE QUERY HISTORY` enrichment is
skipped); an unknown tag pushes an interface error and terminates.  When the
list is exhausted — the server closed the socket without an error message —
`ReadJSON` fails and the reader pushes
`ErrInterfaceError{"unable to read message from server"}`. -/
def readerEvents : List WireMsg → List StreamEvent
  | [] => [.errEv (.interfaceErr "unable to read message from server")]
  | .metaMsg _ :: rest => readerEvents rest
  | .dataMsg r :: rest => .dataEv r :: readerEvents rest
  | .errMsg c m :: _ => [.errEv (.sqlErr c m)]
  | .otherMsg t :: _ => [.errEv (.interfaceErr ("unexpected message type " ++ t))]

/-- The column metadata stored in `r.metadata` after the reader has processed
the message sequence (each `metadata` message overwrites the previous one). -/
def finalMetadata : List WireMsg → Option (List Column) → Option (List Column)
  | [], acc => acc
  | .metaMsg cols :: rest, _ => finalMetadata rest (some cols)
  | .dataMsg _ :: rest, acc => finalMetadata rest acc
  | .errMsg _ _ :: _, acc => acc
  | .otherMsg _ :: _, acc => acc

/-- Consumer-side state of the streaming cursor: the stored metadata, the
queue of reader items not yet consumed, whether `Close` has closed the data
channel, and whether the caller's context is done. -/
structure StreamState where
  metadata : Option (List Column)
  pending : List StreamEvent
  dataChanClosed : Bool
  ctxDone : Bool
deriving DecidableEq, Repr

/-- Observable outcome of one `streamingRows.Next` call. -/
inductive SNext where
  | ctxReturn
  | rowOut (vals : List CellOut)
  | mismatch (expected got : Nat)
  | errOut (e : GoErr)
  | eofOut
  | blocked
  | panicked
deriving DecidableEq, Repr

/-- The decode loop of `streamingRows.Next` over the stored metadata
columns. -/
def decodeCellsStream : List Column → List (Option (List Char)) → RowDecode
  | [], _ => .ok []
  | _ :: _, [] => .panicked
  | c :: cs, d :: ds =>
    match streamingDecodeCell c.typ d with
    | .error e => .errOut e
    | .ok v =>
      match decodeCellsStream cs ds with
      | .ok vs => .ok (v :: vs)
      | r => r

/-- One `streamingRows.Next` call.  The source's `select` is determinized as:
a done context wins first (the source closes the socket and returns `nil`);
otherwise the oldest undelivered reader item is taken — a closed data channel
with nothing pending yields `io.EOF`, and an empty open channel blocks.  A
delivered data row is width-checked against `dest` and decoded
(`r.metadata.Columns` is a nil dereference if no metadata was stored). -/
def streamingNext (destLen : Nat) (st : StreamState) : SNext × StreamState :=
  if st.ctxDone then (.ctxReturn, st)
  else
    match st.pending with
    | .dataEv r :: rest =>
      let st1 := { st with pending := rest }
      if r.length ≠ destLen then (.mismatch r.length destLen, st1)
      else
        match st.metadata with
        | none => (.panicked, st1)
        | some cols =>
          match decodeCellsStream cols r with
          | .ok vals => (.rowOut vals, st1)
          | .errOut e => (.errOut e, st1)
          | .panicked => (.panicked, st1)
    | .errEv e :: rest => (.errOut e, { st with pending := rest })
    | [] => if st.dataChanClosed then (.eofOut, st) else (.blocked, st)

/-- Iterate `streamingNext` `k` times, collecting the outcomes. -/
def replayNext (destLen : Nat) : StreamState → Nat → List SNext
  | _, 0 => []
  | st, k + 1 =>
    let r := streamingNext destLen st
    r.1 :: replayNext destLen r.2 k

/-- The outcomes of the successive `Next` calls on a streaming cursor whose
server sent `msgs` and then closed the socket, the consumer draining every
reader item (context live, `Close` not called). -/
def streamingNextResults (msgs : List WireMsg) (destLen : Nat) : List SNext :=
  replayNext destLen ⟨finalMetadata msgs none, readerEvents msgs, false, false⟩
    (readerEvents msgs).length

/-- A line of a multipart body (the bytes between two CRLFs). -/
abbrev Line := List Char

/-- The boundary line `--<boundary>` the writer emits before each part. -/
def bLine (b : List Char) : Line := '-' :: '-' :: b

/-- The closing line `--<boundary>--` emitted by `writer.Close()`. -/
def closeBLine (b : List Char) : Line := '-' :: '-' :: b ++ ['-', '-']

/-- The `Content-Disposition` header of the JSON request part
(`conn.go`, `submitStatement`). -/
def dispRequestLine : Line := "Content-Disposition: form-data; name=\"request\";".toList

def ctJsonLine : Line := "Content-Type: application/json".toList

/-- The start of the `Content-Disposition` header `CreateFormFile` writes for
an attachment (field name `attachments`); the file name follows, closed by a
quote.  The modelled fragment has `escapeQuotes` act as the identity (names
without `"` or `\`). -/
def fileDispStart : Line :=
  "Content-Disposition: form-data; name=\"attachments\"; filename=\"".toList

def ctOctetLine : Line := "Content-Type: application/octet-stream".toList

/-- One part of a multipart body: header lines, then a blank line, then the
content lines. -/
structure MultipartPart where
  headers : List Line
  content : List Line
deriving DecidableEq, Repr

def partLines (p : MultipartPart) : List Line := p.headers ++ [] :: p.content

/-- A named binary attachment, its content given as the list of its
CRLF-separated lines. -/
structure GoAttachment where
  name : List Char
  content : List Line
deriving DecidableEq, Repr

/-- The JSON request part written first by `Conn.submitStatement`. -/
def requestPart (reqJSON : Line) : MultipartPart :=
  ⟨[dispRequestLine, ctJsonLine], [reqJSON]⟩

/-- The part `CreateFormFile("attachments", name)` + `io.Copy` writes for one
attachment. -/
def attachmentPart (a : GoAttachment) : MultipartPart :=
  ⟨[fileDispStart ++ a.name ++ ['"'], ctOctetLine], a.content⟩

def submitParts (reqJSON : Line) (atts : List GoAttachment) : List MultipartPart :=
  requestPart reqJSON :: atts.map attachmentPart

/-- The multipart body `Conn.submitStatement` builds: for each part a boundary
line followed by the part's lines, then the closing boundary line. -/
def encodeMultipart (b : List Char) (reqJSON : Line) (atts : List GoAttachment) :
    List Line :=
  ((submitParts reqJSON atts).map (fun p => bLine b :: partLines p)).flatten ++ [closeBLine b]

/-- Server-side parsing of one part's lines: the headers run to the first
blank line, the content is everything after it. -/
def parsePartChunk (c : List Line) : Option MultipartPart :=
  let hs := c.takeWhile (fun l => l ≠ [])
  match c.drop hs.length with
  | [] :: content => some ⟨hs, content⟩
  | _ => none

/-- A standard multipart reader over the body's lines: the body must consist
of a first boundary line, boundary-separated part chunks, and the closing
boundary line; each chunk parses as headers / blank line / content. -/
def parseMultipart (b : List Char) (body : List Line) : Option (List MultipartPart) :=
  match goSplit (closeBLine b) body with
  | [main, []] =>
    match goSplit (bLine b) main with
    | [] :: chunks => chunks.mapM parsePartChunk
    | _ => none
  | _ => none

/-- Recover an attachment from a parsed part, as the test-side decoder does
via `FormName`/`FileName`: the part must carry the `attachments` form-data
disposition, from which the file name is read back. -/
def partToAttachment (p : MultipartPart) : Option GoAttachment :=
  match p.headers with
  | [d, ct] =>
    if ct = ctOctetLine ∧ fileDispStart.isPrefixOf d ∧ d.getLast? = some '"' then
      some ⟨(d.drop fileDispStart.length).dropLast, p.content⟩
    else none
  | _ => none

/-- Full server-side decode of a submitted body: parse the multipart lines,
check the leading JSON request part, and read back every attachment. -/
def decodeSubmitBody (b : List Char) (body : List Line) :
    Option (Line × List GoAttachment) :=
  match parseMultipart b body with
  | some (p :: rest) =>
    if p.headers = [dispRequestLine, ctJsonLine] then
      match p.content with
      | [j] => (rest.mapM partToAttachment).map (fun as => (j, as))
      | _ => none
    else none
  | _ => none

/-! ## Library lemmas about `goSplit` -/

theorem goSplit_ne_nil {α : Type} [DecidableEq α] (sep : α) (l : List α) :
    goSplit sep l ≠ [] := by
  cases l with
  | nil => simp [goSplit]
  | cons c rest =>
    simp only [goSplit]
    split
    · simp
    · split <;> simp

theorem goSplit_sepfree {α : Type} [DecidableEq α] {sep : α} {l : List α}
    (h : sep ∉ l) : goSplit sep l = [l] := by
  induction l with
  | nil => rfl
  | cons c rest ih =>
    have hc : c ≠ sep := fun hc => h (hc ▸ List.mem_cons_self c rest)
    have hrest : sep ∉ rest := fun hm => h (List.mem_cons_of_mem c hm)
    simp only [goSplit, if_neg hc, ih hrest]

theorem goSplit_append {α : Type} [DecidableEq α] {sep : α} {xs : List α}
    (ys : List α) (h : sep ∉ xs) :
    goSplit sep (xs ++ sep :: ys) = xs :: goSplit sep ys := by
  induction xs with
  | nil => simp [goSplit]
  | cons c rest ih =>
    have hc : c ≠ sep := fun hc => h (hc ▸ List.mem_cons_self c rest)
    have hrest : sep ∉ rest := fun hm => h (List.mem_cons_of_mem c hm)
    show goSplit sep (c :: (rest ++ sep :: ys)) = (c :: rest) :: goSplit sep ys
    simp only [goSplit, List.append_eq, if_neg hc, ih hrest]

theorem length_goSplit {α : Type} [DecidableEq α] (sep : α) (l : List α) :
    (goSplit sep l).length = l.count sep + 1 := by
  induction l with
  | nil => simp [goSplit]
  | cons c rest ih =>
    simp only [goSplit]
    by_cases hc : c = sep
    · subst hc
      simp [List.count_cons, ih]
    · rw [if_neg hc]
      rcases hr : goSplit sep rest with _ | ⟨h', t'⟩
      · exact absurd hr (goSplit_ne_nil _ _)
      · rw [hr] at ih
        simp only [List.length_cons] at ih ⊢
        simp [List.count_cons, hc]
        omega

/-! ## C2: the partition-index mapping -/

theorem calcPartitionIdxAux_spec (counts : List Int) (p i : Int) :
    calcPartitionIdxAux counts p i =
      match specPartitionOf counts i with
      | some rj => (rj.1, p + rj.2)
      | none => (-1, -1) := by
  induction counts generalizing p i with
  | nil => rfl
  | cons c rest ih =>
    simp only [calcPartitionIdxAux, specPartitionOf]
    by_cases h : i < c
    · simp [h]
    · rw [if_neg h, if_neg h, ih]
      rcases specPartitionOf rest (i - c) with _ | ⟨r, j⟩
      · simp
      · simp only [Option.map]
        rw [Prod.mk.injEq]
        refine ⟨rfl, ?_⟩
        push_cast
        ring

theorem specPartitionOf_eq_none_iff (counts : List Int) (i : Int)
    (hc : ∀ c ∈ counts, 0 ≤ c) (hi : 0 ≤ i) :
    specPartitionOf counts i = none ↔ counts.sum ≤ i := by
  induction counts generalizing i with
  | nil =>
    simp only [specPartitionOf, List.sum_nil]
    exact ⟨fun _ => hi, fun _ => trivial⟩
  | cons c rest ih =>
    have hc0 : 0 ≤ c := hc c (List.mem_cons_self c rest)
    have hrest : ∀ x ∈ rest, 0 ≤ x := fun x hx => hc x (List.mem_cons_of_mem c hx)
    have hsum : 0 ≤ rest.sum := List.sum_nonneg hrest
    simp only [specPartitionOf, List.sum_cons]
    by_cases h : i < c
    · simp only [if_pos h]
      constructor
      · intro habs
        exact absurd habs (by simp)
      · intro hle
        omega
    · rw [if_neg h]
      rw [Option.map_eq_none', ih (i - c) hrest (by omega)]
      omega

theorem specPartitionOf_characterization (counts : List Int) (i : Int) (r : Int) (j : Nat)
    (h : specPartitionOf counts i = some (r, j)) :
    r = i - (counts.take j).sum ∧ r < counts.getD j 0 ∧
      ∀ k < j, counts.getD k 0 ≤ i - (counts.take k).sum := by
  induction counts generalizing i r j with
  | nil => simp [specPartitionOf] at h
  | cons c rest ih =>
    simp only [specPartitionOf] at h
    by_cases hlt : i < c
    · rw [if_pos hlt] at h
      simp only [Option.some.injEq, Prod.mk.injEq] at h
      obtain ⟨hr, hj⟩ := h
      subst hr; subst hj
      refine ⟨by simp, by simpa using hlt, by omega⟩
    · rw [if_neg hlt, Option.map_eq_some'] at h
      obtain ⟨⟨r', j'⟩, hspec, heq⟩ := h
      simp only [Prod.mk.injEq] at heq
      obtain ⟨hr, hj⟩ := heq
      subst hr
      obtain ⟨h1, h2, h3⟩ := ih (i - c) r' j' hspec
      subst hj
      refine ⟨by simpa [List.sum_cons] using by omega, by simpa using h2, ?_⟩
      intro k hk
      cases k with
      | zero => simpa using not_lt.mp hlt
      | succ k' =>
        have := h3 k' (by omega)
        simp only [List.take_succ_cons, List.sum_cons, List.getD_cons_succ]
        omega

/-- C2 (confirmed): for partition row counts `p_0..p_{k-1}` (all nonnegative)
and any global row index `i ≥ 0`, `calcPartitionIdx` agrees with the spec's
walk `specPartitionOf`: it returns the pair (`i` minus the sum of the counts
before `j`, `j`) for the first partition `j` whose row count strictly exceeds
the remaining offset, and signals end-of-data (`(-1, -1)`) exactly when `i` is
at least the total row count; in particular, for counts `[3, 0, 5]`, index 2
maps to local row 2 of partition 0, index 3 to local row 0 of partition 2, and
index 8 is end-of-data. -/
theorem claim_partition_index_mapping (counts : List Int) (i : Int)
    (hc : ∀ c ∈ counts, 0 ≤ c) (hi : 0 ≤ i) :
    (calcPartitionIdx counts i =
      match specPartitionOf counts i with
      | some rj => (rj.1, (rj.2 : Int))
      | none => (-1, -1)) ∧
    (calcPartitionIdx counts i = (-1, -1) ↔ counts.sum ≤ i) ∧
    (∀ r : Int, ∀ j : Nat, specPartitionOf counts i = some (r, j) →
      r = i - (counts.take j).sum ∧ r < counts.getD j 0 ∧
        ∀ k < j, counts.getD k 0 ≤ i - (counts.take k).sum) ∧
    calcPartitionIdx [3, 0, 5] 2 = (2, 0) ∧
    calcPartitionIdx [3, 0, 5] 3 = (0, 2) ∧
    calcPartitionIdx [3, 0, 5] 8 = (-1, -1) := by
  have hmain : calcPartitionIdx counts i =
      match specPartitionOf counts i with
      | some rj => (rj.1, (rj.2 : Int))
      | none => (-1, -1) := by
    rw [calcPartitionIdx, calcPartitionIdxAux_spec]
    rcases specPartitionOf counts i with _ | ⟨r, j⟩ <;> simp
  refine ⟨hmain, ?_, fun r j h => specPartitionOf_characterization counts i r j h,
    by decide, by decide, by decide⟩
  have hnone := specPartitionOf_eq_none_iff counts i hc hi
  rw [hmain]
  rcases hs : specPartitionOf counts i with _ | ⟨r, j⟩ <;> rw [hs] at hnone
  · simpa using hnone
  · simp only [Prod.mk.injEq]
    constructor
    · rintro ⟨-, hj⟩
      omega
    · intro hle
      exact absurd (hnone.mpr hle) (by simp)

/-- Witness for C2 at counts `[3, 0, 5]` and index 3. -/
theorem claim_partition_index_mapping_witness :
    calcPartitionIdx [3, 0, 5] 3 = (0, 2) :=
  (claim_partition_index_mapping [3, 0, 5] 3 (by decide) (by decide)).2.2.2.2.1

/-! ## C3: temporal parsing of `TIMESTAMP*` columns -/

theorem timestamp_ne_date {ct : String} (hct : goHasPfx "TIMESTAMP" ct = true) :
    ct ≠ "DATE" := by
  intro h
  subst h
  exact absurd hct (by decide)

theorem parseTime_timestamp (ct : String) (hct : goHasPfx "TIMESTAMP" ct = true)
    (s : List Char) :
    parseTime s ct =
      match goSplitChar ' ' s with
      | [_, timePart] =>
        goTimeParse
          (layoutTimestamp (timePart.contains '.')
            (timePart.contains 'Z' || timePart.contains '+' || timePart.contains '-')) s
      | _ => .error .invalidTimestampErr := by
  rw [parseTime, if_neg (timestamp_ne_date hct), if_pos hct]

/-- C3 (confirmed): for a column whose declared type has prefix `TIMESTAMP`,
`parseTime` returns the hard error `invalid timestamp` (never a null) whenever
the value does not contain exactly one space; when the value is
`date ++ " " ++ time`, it parses the whole value with the base layout extended
by the fractional-seconds pattern exactly when the time part contains `'.'`
and by the timezone-offset pattern exactly when the time part contains `'Z'`,
`'+'` or `'-'`; in particular `"2023-12-30 03:37:45Z"` parses to the UTC
instant 2023-12-30T03:37:45Z and `"2023-12-30 03:37:45.123456789Z"` preserves
the nanosecond precision. -/
theorem claim_timestamp_temporal_parsing (ct : String)
    (hct : goHasPfx "TIMESTAMP" ct = true) :
    (∀ s : List Char, s.count ' ' ≠ 1 → parseTime s ct = .error .invalidTimestampErr) ∧
    (∀ d t : List Char, ' ' ∉ d → ' ' ∉ t →
      parseTime (d ++ ' ' :: t) ct =
        goTimeParse
          (layoutTimestamp (t.contains '.')
            (t.contains 'Z' || t.contains '+' || t.contains '-')) (d ++ ' ' :: t)) ∧
    parseTime "2023-12-30 03:37:45Z".toList ct = .ok ⟨2023, 12, 30, 3, 37, 45, 0, 0⟩ ∧
    parseTime "2023-12-30 03:37:45.123456789Z".toList ct =
      .ok ⟨2023, 12, 30, 3, 37, 45, 123456789, 0⟩ := by
  refine ⟨?_, ?_, ?_, ?_⟩
  · intro s hcount
    rw [parseTime_timestamp ct hct]
    have hlen : (goSplit ' ' s).length ≠ 2 := by
      rw [length_goSplit]
      omega
    simp only [goSplitChar]
    rcases hg : goSplit ' ' s with _ | ⟨a, _ | ⟨b, _ | ⟨c, rest⟩⟩⟩
    · rfl
    · rfl
    · exfalso
      apply hlen
      rw [hg]
      rfl
    · rfl
  · intro d t hd ht
    rw [parseTime_timestamp ct hct]
    have hsplit : goSplitChar ' ' (d ++ ' ' :: t) = [d, t] := by
      simp only [goSplitChar]
      rw [goSplit_append _ hd, goSplit_sepfree ht]
    rw [hsplit]
  · rw [parseTime_timestamp ct hct]
    decide
  · rw [parseTime_timestamp ct hct]
    decide

/-- Witness for C3: a value with no space is a hard parse error, and the
sample timestamp parses to the UTC instant, at type `TIMESTAMP_TZ`. -/
theorem claim_timestamp_temporal_parsing_witness :
    parseTime "2023-12-30T03:37:45Z".toList "TIMESTAMP_TZ" = .error .invalidTimestampErr ∧
    parseTime "2023-12-30 03:37:45Z".toList "TIMESTAMP_TZ" =
      .ok ⟨2023, 12, 30, 3, 37, 45, 0, 0⟩ :=
  ⟨(claim_timestamp_temporal_parsing "TIMESTAMP_TZ" (by decide)).1 _ (by decide),
   (claim_timestamp_temporal_parsing "TIMESTAMP_TZ" (by decide)).2.2.1⟩

/-! ## C4 and C5: `DATE` and `BIGINT` cell decoding in the two cursors -/

/-- C4 counterexample: the partitioned cursor does *not* pass a `DATE` cell
through as the raw string — it sends it through `parseTime` (the
`TIME`-prefix-or-`DATE` case of its switch) and stores the parsed time
value. -/
theorem claim_date_passthrough_counterexample :
    resultSetDecodeCell "DATE" (some "2023-12-30".toList) =
      .ok (.set (.timeVal ⟨2023, 12, 30, 0, 0, 0, 0, 0⟩)) ∧
    resultSetDecodeCell "DATE" (some "2023-12-30".toList) ≠
      .ok (.set (.str "2023-12-30".toList)) := by
  decide

/-- C4 as amended (proved): for every non-null raw cell of a `DATE` column,
the *streaming* cursor's `Next` passes the raw string through unchanged, while
the *partitioned* cursor's `Next` decodes it through the temporal parser with
the fixed calendar layout (`2006-01-02`), yielding a time value (or a parse
error), not the raw string. -/
theorem claim_date_decode_amended (s : List Char) :
    streamingDecodeCell "DATE" (some s) = .ok (.set (.str s)) ∧
    resultSetDecodeCell "DATE" (some s) =
      (goTimeParse "2006-01-02".toList s).map (fun t => .set (.timeVal t)) :=
  ⟨rfl, rfl⟩

theorem splitSign_digits {ds : List Char} (h2 : ds.all Char.isDigit = true) :
    splitSign ds = (false, ds) := by
  cases ds with
  | nil => rfl
  | cons c r =>
    have hc : c.isDigit = true := by
      simp only [List.all_cons, Bool.and_eq_true] at h2
      exact h2.1
    have hm : c ≠ '-' := by
      intro h
      rw [h] at hc
      exact absurd hc (by decide)
    have hp : c ≠ '+' := by
      intro h
      rw [h] at hc
      exact absurd hc (by decide)
    simp [splitSign, hm, hp]

/-- C5 counterexample: for the wire value `9223372036854775808` (`2^63`, just
above the `int64` range) in a `BIGINT` column, the partitioned cursor's decode
is a hard range error from `strconv.ParseInt`, while the streaming cursor's
arbitrary-precision path succeeds — so it is not the case that both cursors
decode `BIGINT` through an arbitrary-precision parser immune to 64-bit
overflow. -/
theorem claim_bigint_bigparse_counterexample :
    resultSetDecodeCell "BIGINT" (some "9223372036854775808".toList) =
      .error .numRangeErr ∧
    streamingDecodeCell "BIGINT" (some "9223372036854775808".toList) =
      .ok (.set (.bigInt 9223372036854775808)) := by
  decide

/-- C5 as amended (proved): only the streaming cursor decodes `BIGINT` through
the arbitrary-precision decimal parser (`big.ParseFloat` at the 64-bit default
mantissa, then narrowing to a `big.Int`), which never range-fails on a decimal
integer literal; the partitioned cursor parses `BIGINT` with
`strconv.ParseInt(_, 10, 64)` and returns a range error as soon as the value
exceeds the native 64-bit range. -/
theorem claim_bigint_decode_amended (ds : List Char) (h1 : ds ≠ [])
    (h2 : ds.all Char.isDigit = true) :
    streamingDecodeCell "BIGINT" (some ds) =
      .ok (.set (.bigInt (rne64 (digitsVal ds)))) ∧
    resultSetDecodeCell "BIGINT" (some ds) =
      (if (digitsVal ds : Int) ≤ int64Max then .ok (.set (.int64 (digitsVal ds)))
       else .error .numRangeErr) := by
  have hbig : goBigParseFloatInt ds = .ok (rne64 (digitsVal ds)) := by
    rw [goBigParseFloatInt, splitSign_digits h2]
    simp [h1, h2]
  have hint : goParseInt64 ds =
      (if (digitsVal ds : Int) ≤ int64Max then .ok (digitsVal ds)
       else .error .numRangeErr) := by
    rw [goParseInt64, splitSign_digits h2]
    simp [h1, h2]
    have h0 : (0 : Int) ≤ (digitsVal ds : Int) := Int.ofNat_nonneg _
    have hmin : int64Min ≤ 0 := by norm_num [int64Min]
    by_cases hle : (digitsVal ds : Int) ≤ int64Max
    · rw [if_neg ?hc, if_pos hle]
      case hc =>
        push_neg
        exact ⟨le_trans hmin h0, hle⟩
    · rw [if_pos (Or.inr (not_le.mp hle)), if_neg hle]
  constructor
  · show (goBigParseFloatInt ds).map (fun i => CellOut.set (.bigInt i)) = _
    rw [hbig]
    rfl
  · show (goParseInt64 ds).map (fun i => CellOut.set (.int64 i)) = _
    rw [hint]
    by_cases hle : (digitsVal ds : Int) ≤ int64Max
    · rw [if_pos hle, if_pos hle]
      rfl
    · rw [if_neg hle, if_neg hle]
      rfl

/-- Witness for C5 (amended) at `2^63`: the streaming decode succeeds with the
exact value, the partitioned decode range-fails. -/
theorem claim_bigint_decode_amended_witness :
    streamingDecodeCell "BIGINT" (some "9223372036854775808".toList) =
      .ok (.set (.bigInt (rne64 (digitsVal "9223372036854775808".toList)))) ∧
    resultSetDecodeCell "BIGINT" (some "9223372036854775808".toList) =
      (if (digitsVal "9223372036854775808".toList : Int) ≤ int64Max then
        .ok (.set (.int64 (digitsVal "9223372036854775808".toList)))
       else .error .numRangeErr) :=
  claim_bigint_decode_amended "9223372036854775808".toList (by decide) (by decide)

/-! ## C10: safe defaults of the column metadata accessors -/

/-- C10 (confirmed): for any column index outside `[0, number of columns)`,
the metadata accessors of both cursors return their safe defaults —
`ColumnTypeNullable` gives `(false, false)`, `ColumnTypeDatabaseTypeName` the
empty string (with display hints on or off), `ColumnTypeScanType` `nil` — and
the streaming cursor returns the same defaults for *every* index when no
metadata message has been stored.  All accessors are total: the column slice
is read only under the range guard. -/
theorem claim_column_accessor_defaults (cols : List Column) (i : Int)
    (h : i < 0 ∨ (cols.length : Int) ≤ i) :
    columnTypeNullableRS cols i = (false, false) ∧
    columnTypeDatabaseTypeNameRS cols i = "" ∧
    columnTypeScanTypeRS cols i = none ∧
    columnTypeNullableStream (some cols) i = (false, false) ∧
    columnTypeDatabaseTypeNameStream false (some cols) i = "" ∧
    columnTypeDatabaseTypeNameStream true (some cols) i = "" ∧
    columnTypeScanTypeStream (some cols) i = none ∧
    (∀ j : Int, ∀ hints : Bool,
      columnTypeNullableStream none j = (false, false) ∧
      columnTypeDatabaseTypeNameStream hints none j = "" ∧
      columnTypeScanTypeStream none j = none) := by
  refine ⟨?_, ?_, ?_, ?_, ?_, ?_, ?_, fun j hints => ⟨rfl, rfl, rfl⟩⟩ <;>
    simp [columnTypeNullableRS, columnTypeDatabaseTypeNameRS, columnTypeScanTypeRS,
      columnTypeNullableStream, columnTypeDatabaseTypeNameStream,
      columnTypeScanTypeStream, h]

/-- Witness for C10 at an out-of-range index on a one-column descriptor
list. -/
theorem claim_column_accessor_defaults_witness :
    columnTypeNullableRS [⟨"c", "VARCHAR", true⟩] 3 = (false, false) :=
  (claim_column_accessor_defaults [⟨"c", "VARCHAR", true⟩] 3 (by decide)).1

/-! ## C1 and C7: the polling loops -/

/-- A pending result (`sqlState` 03000, statement not yet complete). -/
def pendingRS : ResultSet := ⟨0, "03000", none, [], [], []⟩

/-- C1 (the code violates it on the dataplane path): against a server that
answers `accepted` to every status poll, with the calling context cancelled
from the third pending `select` on, `Conn.getStatement` alternates
poll/1-second-tick cycles and surfaces the context's own cancellation error
unwrapped after the third poll — but `DPConn.getStatement`, whose 202 arm is
`continue` (re-entering the `for` and skipping the ticker `select`), re-polls
immediately with no tick and never observes the cancellation: within 10
iterations it performs 10 back-to-back polls and is still running. -/
theorem claim_polling_wait_and_cancellation :
    connGetStatement false (fun _ => acceptedResponse pendingRS)
        (fun i => decide (2 ≤ i)) 10 =
      (.err .ctxCanceled, [.poll, .tick, .poll, .tick, .poll]) ∧
    dpGetStatement false (fun _ => acceptedResponse pendingRS)
        (fun i => decide (2 ≤ i)) 10 =
      (.outOfFuel, List.replicate 10 .poll) := by
  constructor
  · rfl
  · rfl

/-- C7 (the code violates it on the dataplane path): on a 503 response,
`Conn.getStatement` and `Conn.submitStatement` return immediately (one poll,
no retry) with the unavailable-category error carrying the 503 body's own
message — but `DPConn.getStatement`'s 503 arm reads `resp.JSON500.Message`,
which is a nil-pointer dereference (panic) because `JSON500` is nil in a 503
response. -/
theorem claim_unavailable_503 :
    connGetStatement false (fun _ => unavailableResponse "maintenance")
        (fun _ => false) 5 =
      (.err (.unavailableErr "maintenance"), [.poll]) ∧
    submitDispatch (unavailableResponse "maintenance") =
      .done (.error (.unavailableErr "maintenance")) ∧
    dpGetStatement false (fun _ => unavailableResponse "maintenance")
        (fun _ => false) 5 =
      (.panicked, [.poll]) := by
  refine ⟨rfl, rfl, rfl⟩

/-! ## C6: server socket close on the streaming cursor -/

/-- The outcome `streamingRows.Next` produces for one delivered data row. -/
def dataOutcomeOf (cols : List Column) (destLen : Nat)
    (r : List (Option (List Char))) : SNext :=
  if r.length ≠ destLen then .mismatch r.length destLen
  else
    match decodeCellsStream cols r with
    | .ok vals => .rowOut vals
    | .errOut e => .errOut e
    | .panicked => .panicked

theorem dataOutcomeOf_ne_eof (cols : List Column) (destLen : Nat)
    (r : List (Option (List Char))) : dataOutcomeOf cols destLen r ≠ .eofOut := by
  rw [dataOutcomeOf]
  split
  · simp
  · rcases decodeCellsStream cols r with _ | _ | _ <;> simp

theorem finalMetadata_dataMsgs (rows : List (List (Option (List Char))))
    (acc : Option (List Column)) :
    finalMetadata (rows.map .dataMsg) acc = acc := by
  induction rows with
  | nil => rfl
  | cons r rest ih => simpa [finalMetadata] using ih

theorem readerEvents_dataMsgs (rows : List (List (Option (List Char)))) :
    readerEvents (rows.map .dataMsg) =
      rows.map .dataEv ++ [.errEv (.interfaceErr "unable to read message from server")] := by
  induction rows with
  | nil => rfl
  | cons r rest ih => simp [readerEvents, ih]

theorem replayNext_events (cols : List Column) (destLen : Nat) (e : GoErr)
    (rows : List (List (Option (List Char)))) :
    replayNext destLen ⟨some cols, rows.map .dataEv ++ [.errEv e], false, false⟩
        (rows.length + 1) =
      rows.map (dataOutcomeOf cols destLen) ++ [.errOut e] := by
  induction rows with
  | nil => rfl
  | cons r rest ih =>
    simp only [List.map_cons, List.cons_append, List.length_cons]
    rw [replayNext]
    have hstep : streamingNext destLen
        ⟨some cols, .dataEv r :: (rest.map .dataEv ++ [.errEv e]), false, false⟩ =
        (dataOutcomeOf cols destLen r,
          ⟨some cols, rest.map .dataEv ++ [.errEv e], false, false⟩) := by
      by_cases hl : r.length ≠ destLen
      · simp [streamingNext, dataOutcomeOf, hl]
      · simp only [streamingNext, dataOutcomeOf, if_neg hl, Bool.false_eq_true, if_false]
        rcases decodeCellsStream cols r with _ | _ | _ <;> rfl
    rw [hstep, ih]

/-- C6 counterexample: after the metadata message and two data messages, the
server closing the socket without an error message makes the third `Next`
return the interface error pushed by the failing `ReadJSON` — not
end-of-data. -/
theorem claim_stream_close_eof_counterexample :
    streamingNextResults
        [.metaMsg [⟨"c", "VARCHAR", false⟩], .dataMsg [some ['a']], .dataMsg [some ['b']]] 1 =
      [.rowOut [.set (.str ['a'])], .rowOut [.set (.str ['b'])],
       .errOut (.interfaceErr "unable to read message from server")] ∧
    (streamingNextResults
        [.metaMsg [⟨"c", "VARCHAR", false⟩], .dataMsg [some ['a']], .dataMsg [some ['b']]] 1).get? 2 ≠
      some .eofOut := by
  decide

/-- C6 as amended (proved): after the metadata message and any number of data
messages, a server socket close without an error message makes the calls to
`Next` deliver the buffered rows and then surface
`ErrInterfaceError{"unable to read message from server"}` via the error
channel — never end-of-data; `io.EOF` is returned exactly when the data
channel has been closed (by `Close`) and drained. -/
theorem claim_stream_close_amended (cols : List Column) (destLen : Nat)
    (rows : List (List (Option (List Char)))) :
    streamingNextResults (.metaMsg cols :: rows.map .dataMsg) destLen =
      rows.map (dataOutcomeOf cols destLen) ++
        [.errOut (.interfaceErr "unable to read message from server")] ∧
    (∀ o ∈ streamingNextResults (.metaMsg cols :: rows.map .dataMsg) destLen,
      o ≠ .eofOut) ∧
    (∀ md : Option (List Column),
      streamingNext destLen ⟨md, [], true, false⟩ = (.eofOut, ⟨md, [], true, false⟩)) := by
  have hmeta : finalMetadata (.metaMsg cols :: rows.map .dataMsg) none = some cols := by
    rw [finalMetadata, finalMetadata_dataMsgs]
  have hev : readerEvents (.metaMsg cols :: rows.map .dataMsg) =
      rows.map .dataEv ++ [.errEv (.interfaceErr "unable to read message from server")] := by
    rw [readerEvents, readerEvents_dataMsgs]
  have hlen : (readerEvents (.metaMsg cols :: rows.map .dataMsg)).length =
      rows.length + 1 := by
    simp [hev]
  have hmain : streamingNextResults (.metaMsg cols :: rows.map .dataMsg) destLen =
      rows.map (dataOutcomeOf cols destLen) ++
        [.errOut (.interfaceErr "unable to read message from server")] := by
    rw [streamingNextResults, hmeta, hev]
    simp only [List.length_append, List.length_map, List.length_singleton]
    exact replayNext_events cols destLen _ rows
  refine ⟨hmain, ?_, fun md => rfl⟩
  intro o ho
  rw [hmain] at ho
  rcases List.mem_append.mp ho with hm | hm
  · obtain ⟨r, -, hr⟩ := List.mem_map.mp hm
    exact hr ▸ dataOutcomeOf_ne_eof cols destLen r
  · simp only [List.mem_singleton] at hm
    subst hm
    simp

/-- Witness for C6 (amended) with one buffered data row. -/
theorem claim_stream_close_amended_witness :
    streamingNextResults
        [.metaMsg [⟨"c", "VARCHAR", false⟩], .dataMsg [some ['a']]] 1 =
      [dataOutcomeOf [⟨"c", "VARCHAR", false⟩] 1 [some ['a']],
       .errOut (.interfaceErr "unable to read message from server")] :=
  (claim_stream_close_amended [⟨"c", "VARCHAR", false⟩] 1 [[some ['a']]]).1

/-! ## C8: row-index invariants of the partitioned cursor -/

theorem deliverRow_state (destLen : Nat) (l : Int) (s2 : RowsState) :
    (deliverRow destLen l s2).2 = s2 := by
  rw [deliverRow]
  repeat' split
  all_goals rfl

theorem deliverRow_fst_ne_eof (destLen : Nat) (l : Int) (s2 : RowsState) :
    (deliverRow destLen l s2).1 ≠ .eof := by
  rw [deliverRow]
  repeat' split
  all_goals simp

theorem deliverRow_fst_ne_fetchError (destLen : Nat) (l : Int) (s2 : RowsState)
    (e : GoErr) : (deliverRow destLen l s2).1 ≠ .fetchError e := by
  rw [deliverRow]
  repeat' split
  all_goals simp

theorem deliverRow_row (destLen : Nat) (l : Int) (s2 : RowsState) (vals : List CellOut)
    (h : (deliverRow destLen l s2).1 = .row vals) :
    ∃ rowData, s2.currentResultSet.data.get? l.toNat = some rowData ∧
      rowData.length = destLen ∧
      decodeCellsRS s2.currentResultSet.columns rowData = .ok vals := by
  rw [deliverRow] at h
  split at h
  · exact absurd h (by simp)
  · split at h
    · exact absurd h (by simp)
    · rename_i rowData hget
      split at h
      · exact absurd h (by simp)
      · rename_i hlen
        split at h
        · exact absurd h (by simp)
        · exact absurd h (by simp)
        · rename_i vals' hdec
          simp only [NextOutcome.row.injEq] at h
          subst h
          exact ⟨rowData, hget, not_ne_iff.mp hlen, hdec⟩

theorem rsNext_eof_case (fetch : Int → Except GoErr ResultSet) (destLen : Nat)
    (s : RowsState)
    (h : (calcPartitionIdx s.currentResultSet.partitionCounts (s.currentRowIdx + 1)).2 = -1) :
    rsNext fetch destLen s = (.eof, s) := by
  simp only [rsNext, if_pos h]

theorem rsNext_fetch_error_case (fetch : Int → Except GoErr ResultSet) (destLen : Nat)
    (s : RowsState) (e : GoErr)
    (h1 : ¬ (calcPartitionIdx s.currentResultSet.partitionCounts (s.currentRowIdx + 1)).2 = -1)
    (h2 : (calcPartitionIdx s.currentResultSet.partitionCounts (s.currentRowIdx + 1)).2 ≠
      s.currentPartitionIdx)
    (hf : fetch (calcPartitionIdx s.currentResultSet.partitionCounts (s.currentRowIdx + 1)).2 =
      .error e) :
    rsNext fetch destLen s = (.fetchError e, s) := by
  simp only [rsNext, if_neg h1, if_pos h2, hf]

theorem rsNext_fetch_ok_case (fetch : Int → Except GoErr ResultSet) (destLen : Nat)
    (s : RowsState) (rs' : ResultSet)
    (h1 : ¬ (calcPartitionIdx s.currentResultSet.partitionCounts (s.currentRowIdx + 1)).2 = -1)
    (h2 : (calcPartitionIdx s.currentResultSet.partitionCounts (s.currentRowIdx + 1)).2 ≠
      s.currentPartitionIdx)
    (hf : fetch (calcPartitionIdx s.currentResultSet.partitionCounts (s.currentRowIdx + 1)).2 =
      .ok rs') :
    rsNext fetch destLen s =
      deliverRow destLen
        (calcPartitionIdx s.currentResultSet.partitionCounts (s.currentRowIdx + 1)).1
        ⟨s.currentRowIdx + 1,
          (calcPartitionIdx s.currentResultSet.partitionCounts (s.currentRowIdx + 1)).2, rs'⟩ := by
  simp only [rsNext, if_neg h1, if_pos h2, hf]

theorem rsNext_same_partition_case (fetch : Int → Except GoErr ResultSet) (destLen : Nat)
    (s : RowsState)
    (h1 : ¬ (calcPartitionIdx s.currentResultSet.partitionCounts (s.currentRowIdx + 1)).2 = -1)
    (h2 : ¬ (calcPartitionIdx s.currentResultSet.partitionCounts (s.currentRowIdx + 1)).2 ≠
      s.currentPartitionIdx) :
    rsNext fetch destLen s =
      deliverRow destLen
        (calcPartitionIdx s.currentResultSet.partitionCounts (s.currentRowIdx + 1)).1
        ⟨s.currentRowIdx + 1, s.currentPartitionIdx, s.currentResultSet⟩ := by
  simp only [rsNext, if_neg h1, if_neg h2]

/-- C8 (confirmed): across any `resultSetRows.Next` call, the current row
index never decreases; a call that delivers a row leaves it at exactly the old
value plus one; a call returning end-of-data or a partition-fetch error leaves
the whole cursor state unchanged; and whenever the partition mapping sends the
next row into a partition different from the current one and the fetch
succeeds, the cursor installs that partition index and the refetched snapshot,
and any delivered row is read (and decoded) from the refetched snapshot at the
mapped local row. -/
theorem claim_cursor_row_index_monotone (fetch : Int → Except GoErr ResultSet)
    (destLen : Nat) (s : RowsState) :
    s.currentRowIdx ≤ (rsNext fetch destLen s).2.currentRowIdx ∧
    (∀ vals, (rsNext fetch destLen s).1 = .row vals →
      (rsNext fetch destLen s).2.currentRowIdx = s.currentRowIdx + 1) ∧
    ((rsNext fetch destLen s).1 = .eof → (rsNext fetch destLen s).2 = s) ∧
    (∀ e, (rsNext fetch destLen s).1 = .fetchError e → (rsNext fetch destLen s).2 = s) ∧
    (∀ rs' : ResultSet,
      (calcPartitionIdx s.currentResultSet.partitionCounts (s.currentRowIdx + 1)).2 ≠
        s.currentPartitionIdx →
      (calcPartitionIdx s.currentResultSet.partitionCounts (s.currentRowIdx + 1)).2 ≠ -1 →
      fetch (calcPartitionIdx s.currentResultSet.partitionCounts (s.currentRowIdx + 1)).2 =
        .ok rs' →
      (rsNext fetch destLen s).2.currentPartitionIdx =
        (calcPartitionIdx s.currentResultSet.partitionCounts (s.currentRowIdx + 1)).2 ∧
      (rsNext fetch destLen s).2.currentResultSet = rs' ∧
      (∀ vals, (rsNext fetch destLen s).1 = .row vals →
        ∃ rowData,
          rs'.data.get?
            (calcPartitionIdx s.currentResultSet.partitionCounts
              (s.currentRowIdx + 1)).1.toNat = some rowData ∧
          decodeCellsRS rs'.columns rowData = .ok vals)) := by
  by_cases h1 : (calcPartitionIdx s.currentResultSet.partitionCounts (s.currentRowIdx + 1)).2 = -1
  · rw [rsNext_eof_case fetch destLen s h1]
    refine ⟨le_refl _, ?_, fun _ => rfl, ?_, ?_⟩
    · intro vals h
      exact absurd h (by simp)
    · intro e h
      exact absurd h (by simp)
    · intro rs' _ hne _
      exact absurd h1 hne
  · by_cases h2 : (calcPartitionIdx s.currentResultSet.partitionCounts
        (s.currentRowIdx + 1)).2 ≠ s.currentPartitionIdx
    · rcases hf : fetch (calcPartitionIdx s.currentResultSet.partitionCounts
          (s.currentRowIdx + 1)).2 with e | resp
      · rw [rsNext_fetch_error_case fetch destLen s e h1 h2 hf]
        refine ⟨le_refl _, ?_, ?_, fun _ _ => rfl, ?_⟩
        · intro vals h
          exact absurd h (by simp)
        · intro h
          exact absurd h (by simp)
        · intro rs' _ _ hf'
          exact absurd hf' (by simp)
      · rw [rsNext_fetch_ok_case fetch destLen s resp h1 h2 hf]
        rw [deliverRow_state destLen _ _]
        refine ⟨?_, fun vals _ => rfl, ?_, ?_, ?_⟩
        · show s.currentRowIdx ≤ s.currentRowIdx + 1
          omega
        · intro h
          exact absurd h (deliverRow_fst_ne_eof _ _ _)
        · intro e h
          exact absurd h (deliverRow_fst_ne_fetchError _ _ _ e)
        · intro rs' _ _ hf'
          have hresp : resp = rs' := by
            simpa using hf'
          subst hresp
          refine ⟨rfl, rfl, ?_⟩
          intro vals h
          obtain ⟨rowData, hget, _, hdec⟩ := deliverRow_row _ _ _ _ h
          exact ⟨rowData, hget, hdec⟩
    · rw [rsNext_same_partition_case fetch destLen s h1 h2]
      rw [deliverRow_state destLen _ _]
      refine ⟨?_, fun vals _ => rfl, ?_, ?_, ?_⟩
      · show s.currentRowIdx ≤ s.currentRowIdx + 1
        omega
      · intro h
        exact absurd h (deliverRow_fst_ne_eof _ _ _)
      · intro e h
        exact absurd h (deliverRow_fst_ne_fetchError _ _ _ e)
      · intro rs' hne _ _
        exact absurd hne h2

/-- Witness for C8 on a one-partition, one-row result set: the first `Next`
delivers the row and moves the row index from `-1` to `0`. -/
theorem claim_cursor_row_index_monotone_witness :
    (-1 : Int) ≤ (rsNext (fun _ => .error .connDone) 1
      ⟨-1, 0, ⟨0, "00000", none, [⟨"c", "VARCHAR", false⟩], [1], [[some ['a']]]⟩⟩).2.currentRowIdx :=
  (claim_cursor_row_index_monotone (fun _ => .error .connDone) 1
    ⟨-1, 0, ⟨0, "00000", none, [⟨"c", "VARCHAR", false⟩], [1], [[some ['a']]]⟩⟩).1

/-! ## C9: multipart encode/decode round trip -/

/-- The part line-blocks joined with the boundary line between consecutive
blocks. -/
def interB {α : Type} (d : α) : List (List α) → List α
  | [] => []
  | [c] => c
  | c :: cs => c ++ d :: interB d cs

theorem interB_cons_cons {α : Type} (d : α) (c c2 : List α) (cs : List (List α)) :
    interB d (c :: c2 :: cs) = c ++ d :: interB d (c2 :: cs) := rfl

theorem flatten_cons_eq_interB {α β : Type} (d : α) (f : β → List α) (ps : List β)
    (hne : ps ≠ []) :
    (ps.map (fun p => d :: f p)).flatten = d :: interB d (ps.map f) := by
  induction ps with
  | nil => exact absurd rfl hne
  | cons p rest ih =>
    cases rest with
    | nil => simp [interB]
    | cons q rest' =>
      simp only [List.map_cons, List.flatten_cons] at ih ⊢
      rw [ih (by simp)]
      rw [show (f p :: f q :: List.map f rest') = f p :: (f q :: List.map f rest') from rfl,
        interB_cons_cons]
      simp

theorem mem_interB {α : Type} {d x : α} {chunks : List (List α)}
    (h : x ∈ interB d chunks) : x = d ∨ ∃ c ∈ chunks, x ∈ c := by
  induction chunks with
  | nil => simp [interB] at h
  | cons c rest ih =>
    cases rest with
    | nil =>
      right
      exact ⟨c, by simp, by simpa [interB] using h⟩
    | cons c2 rest' =>
      rw [interB_cons_cons] at h
      rcases List.mem_append.mp h with hc | hd
      · right
        exact ⟨c, by simp, hc⟩
      · rcases List.mem_cons.mp hd with h1 | h2
        · left
          exact h1
        · rcases ih h2 with h3 | ⟨c3, hc3, hx⟩
          · left
            exact h3
          · right
            exact ⟨c3, List.mem_cons_of_mem _ hc3, hx⟩

theorem goSplit_cons_self {α : Type} [DecidableEq α] (d : α) (l : List α) :
    goSplit d (d :: l) = [] :: goSplit d l := by
  simp [goSplit]

theorem goSplit_interB {α : Type} [DecidableEq α] (d : α) (chunks : List (List α))
    (hne : chunks ≠ []) (h : ∀ c ∈ chunks, d ∉ c) :
    goSplit d (interB d chunks) = chunks := by
  induction chunks with
  | nil => exact absurd rfl hne
  | cons c rest ih =>
    cases rest with
    | nil => simpa [interB] using goSplit_sepfree (h c (by simp))
    | cons c2 rest' =>
      rw [interB_cons_cons, goSplit_append _ (h c (by simp)),
        ih (by simp) (fun x hx => h x (List.mem_cons_of_mem c hx))]

theorem bLine_ne_closeBLine (b : List Char) : bLine b ≠ closeBLine b := by
  intro h
  have hlen := congrArg List.length h
  simp [bLine, closeBLine] at hlen

theorem takeWhile_headers (hs content : List Line) (hh : ∀ l ∈ hs, l ≠ []) :
    (hs ++ [] :: content).takeWhile (fun l => l ≠ []) = hs := by
  induction hs with
  | nil => simp
  | cons h0 hs' ih =>
    have h0ne : h0 ≠ [] := hh h0 (by simp)
    simp only [List.cons_append, List.takeWhile_cons]
    rw [if_pos (decide_eq_true h0ne)]
    rw [ih (fun l hl => hh l (List.mem_cons_of_mem h0 hl))]

theorem parsePartChunk_partLines (p : MultipartPart)
    (hh : ∀ l ∈ p.headers, l ≠ []) :
    parsePartChunk (partLines p) = some p := by
  obtain ⟨hs, content⟩ := p
  simp only [parsePartChunk, partLines] at hh ⊢
  rw [takeWhile_headers hs content hh, List.drop_left]

theorem isPrefixOf_append_self (p r : List Char) : p.isPrefixOf (p ++ r) = true := by
  rw [List.isPrefixOf_iff_prefix]
  exact List.prefix_append p r

theorem partToAttachment_roundtrip (a : GoAttachment) :
    partToAttachment (attachmentPart a) = some a := by
  obtain ⟨name, content⟩ := a
  have hpre : fileDispStart.isPrefixOf (fileDispStart ++ name ++ ['"']) = true := by
    rw [List.append_assoc]
    exact isPrefixOf_append_self fileDispStart (name ++ ['"'])
  have hlast : (fileDispStart ++ name ++ ['"']).getLast? = some '"' :=
    List.getLast?_concat _
  have hname : ((fileDispStart ++ name ++ ['"']).drop fileDispStart.length).dropLast = name := by
    rw [List.append_assoc, List.drop_left, List.dropLast_concat]
  simp only [partToAttachment, attachmentPart]
  rw [if_pos ⟨trivial, hpre, hlast⟩, hname]

theorem mapM_parsePartChunk (parts : List MultipartPart)
    (h : ∀ p ∈ parts, ∀ l ∈ p.headers, l ≠ []) :
    (parts.map partLines).mapM parsePartChunk = some parts := by
  induction parts with
  | nil => rfl
  | cons p rest ih =>
    rw [List.map_cons, List.mapM_cons, parsePartChunk_partLines p (h p (by simp)),
      ih (fun q hq => h q (List.mem_cons_of_mem p hq))]
    rfl

theorem mapM_partToAttachment (atts : List GoAttachment) :
    (atts.map attachmentPart).mapM partToAttachment = some atts := by
  induction atts with
  | nil => rfl
  | cons a rest ih =>
    rw [List.map_cons, List.mapM_cons, partToAttachment_roundtrip a, ih]
    rfl

theorem headers_nonempty_submitParts (reqJSON : Line) (atts : List GoAttachment) :
    ∀ p ∈ submitParts reqJSON atts, ∀ l ∈ p.headers, l ≠ [] := by
  intro p hp l hl
  rcases List.mem_cons.mp hp with h | h
  · subst h
    rcases List.mem_cons.mp hl with h1 | h1
    · subst h1
      decide
    · rw [List.mem_singleton.mp h1]
      decide
  · obtain ⟨a, -, ha⟩ := List.mem_map.mp h
    subst ha
    rcases List.mem_cons.mp hl with h1 | h1
    · subst h1
      exact List.cons_ne_nil _ _
    · rw [List.mem_singleton.mp h1]
      decide

theorem header_facts (b : List Char) : dispRequestLine ≠ bLine b ∧
    dispRequestLine ≠ closeBLine b ∧ ctJsonLine ≠ bLine b ∧ ctJsonLine ≠ closeBLine b ∧
    ctOctetLine ≠ bLine b ∧ ctOctetLine ≠ closeBLine b ∧
    ([] : Line) ≠ bLine b ∧ ([] : Line) ≠ closeBLine b ∧
    (∀ n : List Char, fileDispStart ++ n ≠ bLine b ∧ fileDispStart ++ n ≠ closeBLine b) := by
  refine ⟨?_, ?_, ?_, ?_, ?_, ?_, ?_, ?_, ?_⟩
  all_goals first
  | · intro h
      have := congrArg List.head? h
      simp [bLine, closeBLine, dispRequestLine, ctJsonLine, ctOctetLine] at this
  | · intro n
      constructor <;> intro h <;>
        · have := congrArg List.head? h
          rw [show fileDispStart ++ n = 'C' :: ("ontent-Disposition: form-data; name=\"attachments\"; filename=\"".toList ++ n) from rfl] at this
          simp [bLine, closeBLine] at this

/-- All lines of every part of an encoded submission differ from the boundary
and closing-boundary lines, provided the JSON line and the attachment content
lines do. -/
theorem partLines_marker_free (b : List Char) (reqJSON : Line)
    (atts : List GoAttachment)
    (hreq : reqJSON ≠ bLine b ∧ reqJSON ≠ closeBLine b)
    (hatts : ∀ a ∈ atts, ∀ c ∈ a.content, c ≠ bLine b ∧ c ≠ closeBLine b) :
    ∀ ch ∈ (submitParts reqJSON atts).map partLines, ∀ l ∈ ch,
      l ≠ bLine b ∧ l ≠ closeBLine b := by
  obtain ⟨f1, f2, f3, f4, f5, f6, f7, f8, f9⟩ := header_facts b
  intro ch hch l hl
  obtain ⟨p, hp, hpl⟩ := List.mem_map.mp hch
  subst hpl
  rcases List.mem_cons.mp hp with h | h
  · subst h
    simp only [partLines, requestPart] at hl
    rcases List.mem_append.mp hl with h1 | h1
    · rcases List.mem_cons.mp h1 with h2 | h2
      · exact h2 ▸ ⟨f1, f2⟩
      · rw [List.mem_singleton.mp h2]
        exact ⟨f3, f4⟩
    · rcases List.mem_cons.mp h1 with h2 | h2
      · exact h2 ▸ ⟨f7, f8⟩
      · rw [List.mem_singleton.mp h2]
        exact hreq
  · obtain ⟨a, ha, hap⟩ := List.mem_map.mp h
    subst hap
    simp only [partLines, attachmentPart] at hl
    rcases List.mem_append.mp hl with h1 | h1
    · rcases List.mem_cons.mp h1 with h2 | h2
      · subst h2
        rw [List.append_assoc]
        exact f9 _
      · rw [List.mem_singleton.mp h2]
        exact ⟨f5, f6⟩
    · rcases List.mem_cons.mp h1 with h2 | h2
      · exact h2 ▸ ⟨f7, f8⟩
      · exact hatts a ha l h2

/-- C9 (confirmed): encoding a statement request with `N` named attachments as
a multipart body and decoding that body with a standard multipart reader
recovers one JSON request part plus exactly the same `N` attachment names and
contents, independently of the order in which the attachment parts appear: for
every permutation `atts'` of the attachment list, the decode of the encode of
`atts'` succeeds and returns `atts'` itself, whose multiset of (name, content)
pairs equals that of the original list.  (Hypotheses: no content line and not
the JSON line collides with the boundary lines — the boundary is a fresh
random 60-hex-digit token in Go — and names contain no quote or backslash, on
which `escapeQuotes` is the identity.) -/
theorem claim_multipart_roundtrip (b : List Char) (reqJSON : Line)
    (atts atts' : List GoAttachment)
    (hperm : atts'.Perm atts)
    (hreq : reqJSON ≠ bLine b ∧ reqJSON ≠ closeBLine b)
    (hatts : ∀ a ∈ atts, (∀ c ∈ a.content, c ≠ bLine b ∧ c ≠ closeBLine b) ∧
      '"' ∉ a.name ∧ '\\' ∉ a.name) :
    decodeSubmitBody b (encodeMultipart b reqJSON atts') = some (reqJSON, atts') ∧
    Multiset.ofList atts' = Multiset.ofList atts := by
  have hatts' : ∀ a ∈ atts', ∀ c ∈ a.content, c ≠ bLine b ∧ c ≠ closeBLine b :=
    fun a ha => (hatts a (hperm.mem_iff.mp ha)).1
  have hchunks := partLines_marker_free b reqJSON atts' hreq hatts'
  have hchunks_ne : (submitParts reqJSON atts').map partLines ≠ [] := by
    simp [submitParts]
  have hinter_b : ∀ x ∈ interB (bLine b) ((submitParts reqJSON atts').map partLines),
      x ≠ closeBLine b := by
    intro x hx
    rcases mem_interB hx with h | ⟨c, hc, hxc⟩
    · exact h ▸ bLine_ne_closeBLine b
    · exact (hchunks c hc x hxc).2
  have henc : encodeMultipart b reqJSON atts' =
      bLine b :: interB (bLine b) ((submitParts reqJSON atts').map partLines) ++
        [closeBLine b] := by
    rw [encodeMultipart, flatten_cons_eq_interB (bLine b) partLines _ (by simp [submitParts])]
  have hsplitClose : goSplit (closeBLine b) (encodeMultipart b reqJSON atts') =
      [bLine b :: interB (bLine b) ((submitParts reqJSON atts').map partLines), []] := by
    rw [henc]
    rw [show (bLine b :: interB (bLine b) ((submitParts reqJSON atts').map partLines)) ++
        [closeBLine b] =
        (bLine b :: interB (bLine b) ((submitParts reqJSON atts').map partLines)) ++
        closeBLine b :: [] from rfl]
    rw [goSplit_append]
    · rfl
    · intro hmem
      rcases List.mem_cons.mp hmem with h | h
      · exact bLine_ne_closeBLine b h.symm
      · exact hinter_b _ h rfl
  have hsplitB : goSplit (bLine b)
      (bLine b :: interB (bLine b) ((submitParts reqJSON atts').map partLines)) =
      [] :: (submitParts reqJSON atts').map partLines := by
    rw [goSplit_cons_self, goSplit_interB _ _ hchunks_ne]
    intro c hc hxc
    exact (hchunks c hc _ hxc).1 rfl
  have hparse : parseMultipart b (encodeMultipart b reqJSON atts') =
      some (submitParts reqJSON atts') := by
    rw [parseMultipart, hsplitClose]
    show (match goSplit (bLine b)
        (bLine b :: interB (bLine b) ((submitParts reqJSON atts').map partLines)) with
      | [] :: chunks => chunks.mapM parsePartChunk
      | _ => none) = some (submitParts reqJSON atts')
    rw [hsplitB]
    exact mapM_parsePartChunk _ (headers_nonempty_submitParts reqJSON atts')
  constructor
  · rw [decodeSubmitBody, hparse]
    simp only [submitParts, requestPart]
    rw [if_pos trivial, mapM_partToAttachment]
    rfl
  · exact Multiset.coe_eq_coe.mpr hperm

/-- Witness for C9: a two-attachment request round-trips through the multipart
body with the attachments in swapped order. -/
theorem claim_multipart_roundtrip_witness :
    decodeSubmitBody "BOUND".toList
        (encodeMultipart "BOUND".toList "{}".toList
          [⟨"f2.bin".toList, []⟩, ⟨"f1.bin".toList, ["xyz".toList, "pq".toList]⟩]) =
      some ("{}".toList,
        [⟨"f2.bin".toList, []⟩, ⟨"f1.bin".toList, ["xyz".toList, "pq".toList]⟩]) ∧
    Multiset.ofList [(⟨"f2.bin".toList, []⟩ : GoAttachment),
        ⟨"f1.bin".toList, ["xyz".toList, "pq".toList]⟩] =
      Multiset.ofList [⟨"f1.bin".toList, ["xyz".toList, "pq".toList]⟩,
        ⟨"f2.bin".toList, []⟩] :=
  claim_multipart_roundtrip "BOUND".toList "{}".toList
    [⟨"f1.bin".toList, ["xyz".toList, "pq".toList]⟩, ⟨"f2.bin".toList, []⟩]
    [⟨"f2.bin".toList, []⟩, ⟨"f1.bin".toList, ["xyz".toList, "pq".toList]⟩]
    (by decide) (by decide) (by decide)

end GoDS
